import Mathlib

/-!
Verification of the googlysync local filesystem-change pipeline:
shallow embedding of `internal/status` (status store), `internal/sync`
(bounded relay queue), and `internal/fswatch` (normalizer, debouncer,
watcher start-up), translated from the Go source, with theorems settling
the spec claims. Time values are naturals; the Go zero time corresponds
to `0`.
-/

namespace Status

/-- High-level sync state (Go `status.State`). -/
inductive State where
  | unspecified
  | idle
  | syncing
  | error
  | paused
deriving DecidableEq, Repr

/-- A recent filesystem event (Go `status.Event`): op label, path, time. -/
structure Event where
  op : String
  path : String
  occurredAt : Nat
deriving DecidableEq, Repr

/-- Status snapshot (Go `status.Snapshot`). -/
structure Snapshot where
  state : State
  message : String
  lastEvent : String
  updatedAt : Nat
  recentEvents : List Event
deriving DecidableEq, Repr

/-- The status store state (Go `status.Store`, mutex elided: all four
operations run under one lock, so we model them as pure state
transformers). -/
structure Store where
  snapshot : Snapshot
  maxEvents : Nat
  eventRing : List Event
deriving DecidableEq, Repr

/-- Go `NewStore`: initial idle snapshot, max 20 recent events.
`now` is the injected result of `time.Now()`. -/
def newStore (now : Nat) : Store :=
  { snapshot := { state := .idle, message := "idle", lastEvent := "",
                  updatedAt := now, recentEvents := [] },
    maxEvents := 20,
    eventRing := [] }

/-- Go `Store.SetMaxEvents`: returns unchanged for `max ≤ 0`; otherwise
sets the limit, truncates the ring from the oldest end when longer, and
refreshes the snapshot's recent-events copy. -/
def setMaxEvents (n : Int) (s : Store) : Store :=
  if n ≤ 0 then s
  else
    let m := n.toNat
    let ring := if s.eventRing.length > m
      then s.eventRing.drop (s.eventRing.length - m)
      else s.eventRing
    { s with maxEvents := m, eventRing := ring,
             snapshot := { s.snapshot with recentEvents := ring } }

/-- Go `Store.Update`: wholesale snapshot replacement, auto-filling
`UpdatedAt` when zero, carrying `LastEvent` forward when empty, and
unconditionally replacing `RecentEvents` with a copy of the ring. -/
def update (now : Nat) (snap : Snapshot) (s : Store) : Store :=
  let snap1 := if snap.updatedAt = 0 then { snap with updatedAt := now } else snap
  let snap2 := if snap1.lastEvent = "" then { snap1 with lastEvent := s.snapshot.lastEvent } else snap1
  { s with snapshot := { snap2 with recentEvents := s.eventRing } }

/-- Go `AddEvent`'s zero-time fill: `evt.When = time.Now()` when unset. -/
def stamp (now : Nat) (evt : Event) : Event :=
  if evt.occurredAt = 0 then { evt with occurredAt := now } else evt

/-- Go `Store.AddEvent`: stamps the event time when unset, appends to the
ring, truncates from the oldest end past `maxEvents`, recomputes
`LastEvent`, stamps `UpdatedAt`, refreshes the snapshot's ring copy. -/
def addEvent (now : Nat) (evt : Event) (s : Store) : Store :=
  let e := stamp now evt
  let ring0 := s.eventRing ++ [e]
  let ring := if ring0.length > s.maxEvents
    then ring0.drop (ring0.length - s.maxEvents)
    else ring0
  { s with eventRing := ring,
           snapshot := { s.snapshot with
             lastEvent := e.op ++ " " ++ e.path,
             updatedAt := now,
             recentEvents := ring } }

/-- Go `Store.Current`: a copy of the snapshot with a fresh copy of the
ring as its recent events. -/
def current (s : Store) : Snapshot :=
  { s.snapshot with recentEvents := s.eventRing }

/-- The last `m` elements of a list (Go slice `xs[len(xs)-m:]`,
with the no-truncation branch folded in via truncated subtraction). -/
def lastN (m : Nat) (xs : List α) : List α :=
  xs.drop (xs.length - m)

/-- Fold a batch of `(now, event)` calls through `addEvent`. -/
def addAll (l : List (Nat × Event)) (s : Store) : Store :=
  l.foldl (fun t p => addEvent p.1 p.2 t) s

/-- The events of a batch as stored (zero times filled in). -/
def stamped (l : List (Nat × Event)) : List Event :=
  l.map (fun p => stamp p.1 p.2)

/-- One call to a status-store mutating operation, for stating invariants
over every reachable store. -/
inductive StoreOp where
  | upd (now : Nat) (snap : Snapshot)
  | add (now : Nat) (evt : Event)
  | setMax (n : Int)

/-- Apply one store operation. -/
def applyOp (s : Store) : StoreOp → Store
  | .upd now snap => update now snap s
  | .add now evt => addEvent now evt s
  | .setMax n => setMaxEvents n s

/-- A store after any sequence of operations from `newStore`. -/
def runOps (now0 : Nat) (ops : List StoreOp) : Store :=
  ops.foldl applyOp (newStore now0)

end Status

namespace Fswatch

/-- Normalized filesystem operation (Go `fswatch.Op`; `chmod` is the
attribute-change kind, Go `OpChmod`). -/
inductive Op where
  | unknown
  | create
  | write
  | remove
  | rename
  | chmod
deriving DecidableEq, Repr

/-- fsnotify operation bit for Create. -/
def createBit : Nat := 1

/-- fsnotify operation bit for Write. -/
def writeBit : Nat := 2

/-- fsnotify operation bit for Remove. -/
def removeBit : Nat := 4

/-- fsnotify operation bit for Rename. -/
def renameBit : Nat := 8

/-- fsnotify operation bit for Chmod. -/
def chmodBit : Nat := 16

/-- Go `normalizeOp`: maps a raw fsnotify bitmask to a logical operation,
testing the bits in the source's switch order (Create, Write, Remove,
Rename, Chmod), first match winning. -/
def normalizeOp (mask : Nat) : Op :=
  if mask &&& createBit = createBit then .create
  else if mask &&& writeBit = writeBit then .write
  else if mask &&& removeBit = removeBit then .remove
  else if mask &&& renameBit = renameBit then .rename
  else if mask &&& chmodBit = chmodBit then .chmod
  else .unknown

/-- The priority table inside Go `mergeOp`. -/
def priority : Op → Nat
  | .remove => 5
  | .rename => 4
  | .create => 3
  | .write => 2
  | .chmod => 1
  | .unknown => 0

/-- Go `mergeOp`: keep `next` when its priority is at least the current
one's, otherwise keep `current`. -/
def mergeOp (current next : Op) : Op :=
  if priority current ≤ priority next then next else current

/-- Go `filepath.Base` for unix paths: empty path gives `"."`, trailing
slashes are stripped, the last path element is returned, and a path of
only slashes gives `"/"`. -/
def base (path : String) : String :=
  if path = "" then "."
  else
    let rcs := path.data.reverse.dropWhile (fun c => c = '/')
    let name := rcs.takeWhile (fun c => c ≠ '/')
    if name = [] then "/"
    else String.mk name.reverse

/-- The suffix test in Go `shouldIgnore`
(`len(base) >= len(suf) && base[len(base)-len(suf):] == suf`). -/
def hasSuffix (s suf : String) : Bool :=
  suf.data.isSuffixOf s.data

/-- The configuration fields `shouldIgnore` and `Start` read
(Go `config.Config`, restricted to those fields). -/
structure Config where
  syncRoot : String
  logFilePath : String
  databasePath : String
  socketPath : String
  ignorePatterns : List String

/-- Go `Watcher.shouldIgnore`. The glob matcher `gm` stands for the
standard library's `filepath.Match` applied as `gm pattern name`
(that function is outside this repository, so it is kept abstract). -/
def shouldIgnore (gm : String → String → Bool) (cfg : Config) (path : String) : Bool :=
  let b := base path
  if b = "." ∨ b = ".." then true
  else if cfg.logFilePath ≠ "" ∧ path = cfg.logFilePath then true
  else if cfg.databasePath ≠ "" ∧ path = cfg.databasePath then true
  else if cfg.socketPath ≠ "" ∧ path = cfg.socketPath then true
  else if cfg.ignorePatterns.any (fun pat => gm pat b) then true
  else if [".swp", ".tmp", "~", ".DS_Store"].any (fun suf => hasSuffix b suf) then true
  else false

/-- A normalized event (Go `fswatch.Event`; `occurredAt` is the Go
field `When`). -/
structure Event where
  path : String
  op : Op
  occurredAt : Nat
deriving DecidableEq, Repr

/-- Debouncer-visible watcher state: the pending table (Go
`Watcher.pending`, a map keyed by path, modelled as an association list
of `(path, op, releaseAt)`), the events sent on the output channel (Go
`Watcher.out`), and the `(op, path)` content of the summary strings
written to the status store at each flush (Go calls
`status.SetLastEvent(formatEvent(evt, root))`; `SetLastEvent` and the
relative-path formatting are not part of the watched source, so the
summary is modelled by the event content it is formatted from). -/
structure WState where
  pending : List (String × Op × Nat)
  out : List Event
  summaries : List (Op × String)
deriving DecidableEq, Repr

/-- The watcher's initial state: empty pending table, nothing emitted. -/
def wstate0 : WState := ⟨[], [], []⟩

/-- Map insertion `pending[path] = v` on the association list. -/
def setPending (pending : List (String × Op × Nat)) (path : String) (v : Op × Nat) :
    List (String × Op × Nat) :=
  match pending with
  | [] => [(path, v.1, v.2)]
  | q :: rest => if q.1 = path then (path, v.1, v.2) :: rest else q :: setPending rest path v

/-- Go `Watcher.handleEvent`: drop ignored paths before anything else,
drop events normalizing to `unknown`, otherwise store
`Event{Path, Op, When: now + debounce}` into the pending table,
overwriting any entry for that path. (The call also extends the OS watch
set for created directories; that touches no debouncer state and is not
modelled.) -/
def handleEvent (gm : String → String → Bool) (cfg : Config) (deb : Nat)
    (now : Nat) (st : WState) (path : String) (mask : Nat) : WState :=
  if shouldIgnore gm cfg path then st
  else
    let op := normalizeOp mask
    if op = .unknown then st
    else { st with pending := setPending st.pending path (op, now + deb) }

/-- Go `Watcher.flushPending`: every pending entry whose release time is
at or before `now` is removed, emitted with `When = now`, and its summary
written; later entries stay pending. (The Go output channel can drop an
event when full; the model keeps every flushed event, which only enlarges
the emitted set.) -/
def flushPending (now : Nat) (st : WState) : WState :=
  { pending := st.pending.filter (fun e => decide (now < e.2.2)),
    out := st.out ++ (st.pending.filter (fun e => decide (e.2.2 ≤ now))).map
      (fun e => { path := e.1, op := e.2.1, occurredAt := now }),
    summaries := st.summaries ++ (st.pending.filter (fun e => decide (e.2.2 ≤ now))).map
      (fun e => (e.2.1, e.1)) }

/-- One input to the watcher loop: a raw OS event or a debounce tick. -/
inductive WStep where
  | raw (now : Nat) (path : String) (mask : Nat)
  | tick (now : Nat)

/-- One iteration of the Go `run` select loop on the modelled state. -/
def stepW (gm : String → String → Bool) (cfg : Config) (deb : Nat)
    (st : WState) : WStep → WState
  | .raw now path mask => handleEvent gm cfg deb now st path mask
  | .tick now => flushPending now st

/-- The watcher loop over a whole input sequence, from the initial state. -/
def runW (gm : String → String → Bool) (cfg : Config) (deb : Nat)
    (steps : List WStep) : WState :=
  steps.foldl (stepW gm cfg deb) wstate0

/-- No pending entry, emitted event, or written summary mentions path
`p`. -/
def avoids (p : String) (st : WState) : Prop :=
  (∀ e ∈ st.pending, e.1 ≠ p) ∧ (∀ e ∈ st.out, e.path ≠ p) ∧ (∀ e ∈ st.summaries, e.2 ≠ p)

/-- What Go `Watcher.Start` did before returning: its returned error and
which of its effects ran. -/
structure StartOutcome where
  errored : Option String
  mkdirCalled : Bool
  walkCalled : Bool
  statusUpdated : Bool
  loopStarted : Bool
deriving DecidableEq, Repr

/-- Go `Watcher.Start` control flow, with the results of the two fallible
filesystem calls injected: empty sync root returns nil at once;
`os.MkdirAll` failure returns its error; `addRecursive` (the directory
walk that installs the watch set) failure returns its error; otherwise
the status store is set to watching and the processing goroutine is
started. -/
def start (syncRoot : String) (mkdirErr walkErr : Option String) : StartOutcome :=
  if syncRoot = "" then ⟨none, false, false, false, false⟩
  else
    match mkdirErr with
    | some e => ⟨some e, true, false, false, false⟩
    | none =>
      match walkErr with
      | some e => ⟨some e, true, true, false, false⟩
      | none => ⟨none, true, true, true, true⟩

/-- Written from the spec claim's words, for comparison with
`normalizeOp`: pick the operation of highest fixed priority among the set
bits, `Remove(5) > Rename(4) > Create(3) > Write(2) > AttributeChange(1)`,
first match winning, `unknown` when none match. -/
def normalizeOpSpec (mask : Nat) : Op :=
  if mask &&& removeBit = removeBit then .remove
  else if mask &&& renameBit = renameBit then .rename
  else if mask &&& createBit = createBit then .create
  else if mask &&& writeBit = writeBit then .write
  else if mask &&& chmodBit = chmodBit then .chmod
  else .unknown

/-- Written from the spec claim's words, for comparison with
`shouldIgnore`: the four ignore rules as a plain disjunction. -/
def ignoreSpecMatch (gm : String → String → Bool) (cfg : Config) (path : String) : Prop :=
  base path = "." ∨ base path = ".."
  ∨ (cfg.logFilePath ≠ "" ∧ path = cfg.logFilePath)
  ∨ (cfg.databasePath ≠ "" ∧ path = cfg.databasePath)
  ∨ (cfg.socketPath ≠ "" ∧ path = cfg.socketPath)
  ∨ (∃ pat ∈ cfg.ignorePatterns, gm pat (base path) = true)
  ∨ (∃ suf ∈ [".swp", ".tmp", "~", ".DS_Store"], hasSuffix (base path) suf = true)

end Fswatch

namespace Syncq

/-- The bounded relay queue (Go `sync.Queue`): the buffered channel is
modelled by its capacity and buffered contents; `warnings` records the
paths of dropped events that were logged. -/
structure Queue where
  capacity : Nat
  items : List Fswatch.Event
  warnings : List String
deriving DecidableEq, Repr

/-- Go `NewQueue`: a non-positive requested capacity becomes 1024. -/
def newQueue (capacity : Int) : Queue :=
  { capacity := if capacity ≤ 0 then 1024 else capacity.toNat,
    items := [], warnings := [] }

/-- Go `Queue.Enqueue`: the non-blocking select sends when the buffer has
room and otherwise drops the event, logging a warning with its path. -/
def enqueue (q : Queue) (evt : Fswatch.Event) : Queue :=
  if q.items.length < q.capacity then { q with items := q.items ++ [evt] }
  else { q with warnings := q.warnings ++ [evt.path] }

/-- Enqueue a whole sequence of events in order. -/
def enqueueAll (l : List Fswatch.Event) (q : Queue) : Queue :=
  l.foldl enqueue q

end Syncq

/-! Concrete inputs used by counterexamples and witnesses. -/

/-- A glob matcher that matches nothing (empty ignore-pattern behavior). -/
def gmNone : String → String → Bool := fun _ _ => false

/-- A sample configuration: sync root `/sync`, no reserved paths, one
ignore pattern. -/
def cfgA : Fswatch.Config :=
  { syncRoot := "/sync", logFilePath := "", databasePath := "",
    socketPath := "", ignorePatterns := ["*.tmp"] }

/-- A sample watcher input sequence touching an ignored path and a
regular path. -/
def stepsC3 : List Fswatch.WStep :=
  [.raw 0 "/sync/tmp.swp" 1, .raw 10 "/sync/a.txt" 1, .tick 400]

/-- Sample recent event. -/
def evOne : Status.Event := { op := "CREATE", path := "a", occurredAt := 0 }

/-- Sample recent event. -/
def evTwo : Status.Event := { op := "WRITE", path := "b", occurredAt := 5 }

/-- Sample recent event. -/
def evThree : Status.Event := { op := "REMOVE", path := "c", occurredAt := 7 }

/-- A caller-supplied snapshot whose every field, recent events included,
is set. -/
def snapIn : Status.Snapshot :=
  { state := .syncing, message := "m", lastEvent := "x", updatedAt := 5,
    recentEvents := [evOne] }

/-- A status store holding two ring events (max still the default 20). -/
def storeTwo : Status.Store :=
  Status.addAll [(1, evOne), (2, evTwo)] (Status.newStore 1)

/-- Sample queue event. -/
def qeOne : Fswatch.Event := { path := "a", op := .create, occurredAt := 1 }

/-- Sample queue event. -/
def qeTwo : Fswatch.Event := { path := "b", op := .write, occurredAt := 2 }

/-- Sample queue event. -/
def qeThree : Fswatch.Event := { path := "c", op := .remove, occurredAt := 3 }

/-- A queue of capacity 2 filled to capacity. -/
def qFull : Syncq.Queue := Syncq.enqueueAll [qeOne, qeTwo] (Syncq.newQueue 2)

/-! Theorems. -/

namespace Status

theorem lastN_length (m : Nat) (xs : List α) :
    (lastN m xs).length = min m xs.length := by
  simp [lastN]
  omega

theorem lastN_of_le (m : Nat) (xs : List α) (h : xs.length ≤ m) :
    lastN m xs = xs := by
  simp [lastN, Nat.sub_eq_zero_of_le h]

theorem lastN_lastN_append (m : Nat) (xs ys : List α) :
    lastN m (lastN m xs ++ ys) = lastN m (xs ++ ys) := by
  unfold lastN
  simp only [List.length_append, List.length_drop]
  rw [List.drop_append_eq_append_drop, List.drop_append_eq_append_drop, List.drop_drop]
  simp only [List.length_drop]
  congr 1
  · congr 1
    omega
  · congr 1
    omega

theorem addEvent_ring (now : Nat) (evt : Event) (s : Store) :
    (addEvent now evt s).eventRing = lastN s.maxEvents (s.eventRing ++ [stamp now evt]) := by
  unfold addEvent lastN
  dsimp only
  split
  · rfl
  · next h =>
    simp only [List.length_append, List.length_cons, List.length_nil] at h ⊢
    have : s.eventRing.length + 1 - s.maxEvents = 0 := by omega
    simp [this]

theorem addEvent_maxEvents (now : Nat) (evt : Event) (s : Store) :
    (addEvent now evt s).maxEvents = s.maxEvents := by
  unfold addEvent
  rfl

theorem addAll_ring (l : List (Nat × Event)) (s : Store)
    (h : s.eventRing.length ≤ s.maxEvents) :
    (addAll l s).eventRing = lastN s.maxEvents (s.eventRing ++ stamped l)
      ∧ (addAll l s).maxEvents = s.maxEvents := by
  induction l generalizing s with
  | nil =>
    simp [addAll, stamped, lastN_of_le _ _ h]
  | cons p l ih =>
    have hstep : addAll (p :: l) s = addAll l (addEvent p.1 p.2 s) := by
      simp [addAll]
    have hlen : (addEvent p.1 p.2 s).eventRing.length ≤ (addEvent p.1 p.2 s).maxEvents := by
      rw [addEvent_ring, addEvent_maxEvents, lastN_length]
      omega
    obtain ⟨hr, hm⟩ := ih (addEvent p.1 p.2 s) hlen
    rw [hstep, hr, hm, addEvent_maxEvents, addEvent_ring, lastN_lastN_append]
    constructor
    · simp [stamped]
    · rfl

theorem applyOp_ring_eq (s : Store) (o : StoreOp)
    (h : s.snapshot.recentEvents = s.eventRing) :
    (applyOp s o).snapshot.recentEvents = (applyOp s o).eventRing := by
  cases o with
  | upd now snap => rfl
  | add now evt => rfl
  | setMax n =>
    show (setMaxEvents n s).snapshot.recentEvents = (setMaxEvents n s).eventRing
    unfold setMaxEvents
    split
    · exact h
    · rfl

theorem foldl_applyOp_ring (ops : List StoreOp) (s : Store)
    (h : s.snapshot.recentEvents = s.eventRing) :
    (ops.foldl applyOp s).snapshot.recentEvents = (ops.foldl applyOp s).eventRing := by
  induction ops generalizing s with
  | nil => exact h
  | cons o ops ih => exact ih _ (applyOp_ring_eq s o h)

end Status

/-- C5: after any `N ≥ 1` calls to `addEvent` on a store whose ring
starts empty with maximum ring size `M`, the ring has length `min N M`
and holds exactly the most recent stored events in arrival order, the
oldest `N - M` having been evicted; the final `addEvent` (and, since the
batch is arbitrary, every one) recomputes the last-event summary from the
event it added and stamps the snapshot's update time. -/
theorem c5_ring_invariant (l : List (Nat × Status.Event)) (p : Nat × Status.Event)
    (s : Status.Store) (h : s.eventRing = []) :
    (Status.addAll (l ++ [p]) s).eventRing
        = (Status.stamped (l ++ [p])).drop ((l ++ [p]).length - s.maxEvents)
    ∧ (Status.addAll (l ++ [p]) s).eventRing.length = min (l ++ [p]).length s.maxEvents
    ∧ (Status.addAll (l ++ [p]) s).snapshot.lastEvent
        = (Status.stamp p.1 p.2).op ++ " " ++ (Status.stamp p.1 p.2).path
    ∧ (Status.addAll (l ++ [p]) s).snapshot.updatedAt = p.1
    ∧ (Status.addAll (l ++ [p]) s).snapshot.recentEvents
        = (Status.addAll (l ++ [p]) s).eventRing := by
  have hlen : s.eventRing.length ≤ s.maxEvents := by rw [h]; simp
  obtain ⟨hr, _⟩ := Status.addAll_ring (l ++ [p]) s hlen
  rw [h] at hr
  simp only [List.nil_append] at hr
  have hlast : Status.addAll (l ++ [p]) s = Status.addEvent p.1 p.2 (Status.addAll l s) := by
    simp [Status.addAll, List.foldl_append]
  refine ⟨?_, ?_, ?_, ?_, ?_⟩
  · rw [hr]
    simp [Status.lastN, Status.stamped]
  · rw [hr, Status.lastN_length]
    simp [Status.stamped, Nat.min_comm]
  · rw [hlast]
    rfl
  · rw [hlast]
    rfl
  · rw [hlast]
    rfl

/-- C5 witness: two `addEvent` calls on a fresh store shrunk to a
one-slot ring keep only the newest event and restamp the summary. -/
theorem c5_ring_invariant_witness :
    (Status.setMaxEvents 1 (Status.newStore 1)).eventRing = []
    ∧ ((Status.addAll ([(1, evOne)] ++ [(2, evTwo)]) (Status.setMaxEvents 1 (Status.newStore 1))).eventRing
        = (Status.stamped ([(1, evOne)] ++ [(2, evTwo)])).drop
            (([(1, evOne)] ++ [(2, evTwo)]).length - (Status.setMaxEvents 1 (Status.newStore 1)).maxEvents)
      ∧ (Status.addAll ([(1, evOne)] ++ [(2, evTwo)]) (Status.setMaxEvents 1 (Status.newStore 1))).eventRing.length
        = min ([(1, evOne)] ++ [(2, evTwo)]).length (Status.setMaxEvents 1 (Status.newStore 1)).maxEvents
      ∧ (Status.addAll ([(1, evOne)] ++ [(2, evTwo)]) (Status.setMaxEvents 1 (Status.newStore 1))).snapshot.lastEvent
        = (Status.stamp 2 evTwo).op ++ " " ++ (Status.stamp 2 evTwo).path
      ∧ (Status.addAll ([(1, evOne)] ++ [(2, evTwo)]) (Status.setMaxEvents 1 (Status.newStore 1))).snapshot.updatedAt = 2
      ∧ (Status.addAll ([(1, evOne)] ++ [(2, evTwo)]) (Status.setMaxEvents 1 (Status.newStore 1))).snapshot.recentEvents
        = (Status.addAll ([(1, evOne)] ++ [(2, evTwo)]) (Status.setMaxEvents 1 (Status.newStore 1))).eventRing) :=
  ⟨by decide,
   c5_ring_invariant [(1, evOne)] (2, evTwo) (Status.setMaxEvents 1 (Status.newStore 1)) (by decide)⟩

/-- C6: `setMaxEvents n` with `n ≤ 0` leaves the store unchanged; with
`n > 0` it sets the maximum ring size to `n` and truncates the ring from
the oldest end so that the newest `min (previous length) n` events
remain. -/
theorem c6_setMaxEvents (n : Int) (s : Status.Store) :
    (n ≤ 0 → Status.setMaxEvents n s = s)
    ∧ (0 < n → (Status.setMaxEvents n s).maxEvents = n.toNat
        ∧ (Status.setMaxEvents n s).eventRing
            = s.eventRing.drop (s.eventRing.length - n.toNat)
        ∧ (Status.setMaxEvents n s).eventRing.length = min s.eventRing.length n.toNat) := by
  constructor
  · intro h
    simp [Status.setMaxEvents, h]
  · intro h
    have h0 : ¬ n ≤ 0 := by omega
    have hring : (Status.setMaxEvents n s).eventRing
        = s.eventRing.drop (s.eventRing.length - n.toNat) := by
      unfold Status.setMaxEvents
      simp only [h0, if_false]
      split
      · rfl
      · next hle =>
        have hz : s.eventRing.length - n.toNat = 0 := by omega
        rw [hz, List.drop_zero]
    refine ⟨?_, hring, ?_⟩
    · simp [Status.setMaxEvents, h0]
    · rw [hring]
      simp only [List.length_drop]
      omega

/-- C6 witness: on a store holding two events, `setMaxEvents (-1)` is a
no-op and `setMaxEvents 1` keeps exactly the newest event. -/
theorem c6_setMaxEvents_witness :
    ((-1 : Int) ≤ 0 ∧ Status.setMaxEvents (-1) storeTwo = storeTwo)
    ∧ ((0 : Int) < 1
      ∧ ((Status.setMaxEvents 1 storeTwo).maxEvents = (1 : Int).toNat
        ∧ (Status.setMaxEvents 1 storeTwo).eventRing
            = storeTwo.eventRing.drop (storeTwo.eventRing.length - (1 : Int).toNat)
        ∧ (Status.setMaxEvents 1 storeTwo).eventRing.length
            = min storeTwo.eventRing.length (1 : Int).toNat)) :=
  ⟨⟨by decide, (c6_setMaxEvents (-1) storeTwo).1 (by decide)⟩,
   ⟨by decide, (c6_setMaxEvents 1 storeTwo).2 (by decide)⟩⟩

/-- C7 counterexample: `update` is not a wholesale replacement — a
caller-supplied recent-events list is discarded and replaced by a copy of
the (here empty) internal ring. -/
theorem c7_counterexample :
    snapIn.recentEvents = [evOne]
    ∧ (Status.update 7 snapIn (Status.newStore 1)).snapshot.recentEvents = []
    ∧ (Status.update 7 snapIn (Status.newStore 1)).snapshot.recentEvents
        ≠ snapIn.recentEvents := by decide

/-- C7 amended: `update` replaces the snapshot's state and message with
the caller's, auto-fills `updatedAt` with the current time when unset,
carries the previous last-event summary forward when the caller's is
unset, and always replaces recent events with a copy of the internal
ring — so an unset recent-events list is carried forward (the previous
snapshot's recent events equal the ring), while a caller-supplied list is
ignored. -/
theorem c7_update_fields (now : Nat) (snap : Status.Snapshot) (s : Status.Store) :
    (Status.update now snap s).snapshot.state = snap.state
    ∧ (Status.update now snap s).snapshot.message = snap.message
    ∧ (Status.update now snap s).snapshot.updatedAt
        = (if snap.updatedAt = 0 then now else snap.updatedAt)
    ∧ (Status.update now snap s).snapshot.lastEvent
        = (if snap.lastEvent = "" then s.snapshot.lastEvent else snap.lastEvent)
    ∧ (Status.update now snap s).snapshot.recentEvents = s.eventRing
    ∧ (s.snapshot.recentEvents = s.eventRing →
        (Status.update now snap s).snapshot.recentEvents = s.snapshot.recentEvents) := by
  unfold Status.update
  by_cases h1 : snap.updatedAt = 0 <;> by_cases h2 : snap.lastEvent = "" <;>
    simp [h1, h2] <;> intro h <;> rw [h]

/-- C7 witness: updating a fresh store with a fully-set snapshot keeps
the caller's state, message, timestamp, and summary, but its recent
events come from the (empty) ring, matching the previous snapshot's. -/
theorem c7_update_fields_witness :
    ((Status.newStore 1).snapshot.recentEvents = (Status.newStore 1).eventRing)
    ∧ ((Status.update 7 snapIn (Status.newStore 1)).snapshot.state = snapIn.state
      ∧ (Status.update 7 snapIn (Status.newStore 1)).snapshot.updatedAt
          = (if snapIn.updatedAt = 0 then 7 else snapIn.updatedAt)
      ∧ (Status.update 7 snapIn (Status.newStore 1)).snapshot.recentEvents
          = (Status.newStore 1).snapshot.recentEvents) :=
  ⟨by decide,
   (c7_update_fields 7 snapIn (Status.newStore 1)).1,
   (c7_update_fields 7 snapIn (Status.newStore 1)).2.2.1,
   (c7_update_fields 7 snapIn (Status.newStore 1)).2.2.2.2.2 (by decide)⟩

/-- C10: after any sequence of store operations from `newStore`, the
snapshot's recent-events list equals the internal event ring; `current`
returns exactly the ring as its recent events; and `update`
unconditionally replaces any caller-supplied recent-events list with the
ring (so callers can never inject or delete recent events), as does
`addEvent` with its updated ring. -/
theorem c10_ring_tracks_snapshot (now0 : Nat) (ops : List Status.StoreOp) :
    (Status.runOps now0 ops).snapshot.recentEvents = (Status.runOps now0 ops).eventRing
    ∧ (Status.current (Status.runOps now0 ops)).recentEvents
        = (Status.runOps now0 ops).eventRing
    ∧ (∀ now snap s, (Status.update now snap s).snapshot.recentEvents = s.eventRing)
    ∧ (∀ now evt s, (Status.addEvent now evt s).snapshot.recentEvents
        = (Status.addEvent now evt s).eventRing) :=
  ⟨Status.foldl_applyOp_ring ops (Status.newStore now0) rfl,
   rfl,
   fun _ _ _ => rfl,
   fun _ _ _ => rfl⟩

namespace Syncq

theorem enqueueAll_items (l : List Fswatch.Event) (q : Queue)
    (h : q.items.length ≤ q.capacity) :
    (enqueueAll l q).items = q.items ++ l.take (q.capacity - q.items.length)
    ∧ (enqueueAll l q).capacity = q.capacity := by
  induction l generalizing q with
  | nil => simp [enqueueAll]
  | cons e l ih =>
    have hstep : enqueueAll (e :: l) q = enqueueAll l (enqueue q e) := rfl
    by_cases hlt : q.items.length < q.capacity
    · have henq : enqueue q e = { q with items := q.items ++ [e] } := by
        simp [enqueue, hlt]
      obtain ⟨h1, h2⟩ := ih (enqueue q e) (by rw [henq]; simp; omega)
      rw [hstep, h1, h2, henq]
      refine ⟨?_, rfl⟩
      show (q.items ++ [e]) ++ l.take (q.capacity - (q.items ++ [e]).length)
          = q.items ++ (e :: l).take (q.capacity - q.items.length)
      rw [List.append_assoc]
      congr 1
      have hsucc : q.capacity - q.items.length = (q.capacity - (q.items.length + 1)) + 1 := by
        omega
      rw [hsucc, List.take_succ_cons]
      simp
    · have hfull : q.items.length = q.capacity := by omega
      have henq : enqueue q e = { q with warnings := q.warnings ++ [e.path] } := by
        simp [enqueue, hlt]
      obtain ⟨h1, h2⟩ := ih (enqueue q e) (by rw [henq]; exact h)
      rw [hstep, h1, h2, henq]
      refine ⟨?_, rfl⟩
      have hz : q.capacity - q.items.length = 0 := by omega
      simp [hz]

end Syncq

/-- C4: a queue built with capacity `c` has capacity `c` when positive and
1024 otherwise; after enqueuing any sequence the buffered items are
exactly the first-capacity-many of the sequence (so the length never
exceeds the capacity), and an enqueue into a full queue leaves the items
unchanged, recording a warning with the dropped event's path instead. -/
theorem c4_queue_bounded (capacity : Int) (l : List Fswatch.Event) :
    (Syncq.enqueueAll l (Syncq.newQueue capacity)).items.length
        ≤ (Syncq.enqueueAll l (Syncq.newQueue capacity)).capacity
    ∧ (Syncq.enqueueAll l (Syncq.newQueue capacity)).items
        = l.take (Syncq.newQueue capacity).capacity
    ∧ (Syncq.newQueue capacity).capacity
        = (if capacity ≤ 0 then 1024 else capacity.toNat)
    ∧ (∀ q : Syncq.Queue, ∀ e : Fswatch.Event, q.items.length = q.capacity →
        Syncq.enqueue q e = { q with warnings := q.warnings ++ [e.path] }) := by
  obtain ⟨h1, h2⟩ := Syncq.enqueueAll_items l (Syncq.newQueue capacity)
    (by simp [Syncq.newQueue])
  have hitems : (Syncq.enqueueAll l (Syncq.newQueue capacity)).items
      = l.take (Syncq.newQueue capacity).capacity := by
    rw [h1]
    simp [Syncq.newQueue]
  refine ⟨?_, hitems, rfl, ?_⟩
  · rw [hitems, h2]
    simp [List.length_take]
  · intro q e hfull
    have hnlt : ¬ q.items.length < q.capacity := by omega
    simp [Syncq.enqueue, hnlt]

/-- C4 witness: with capacity 2 and three enqueues, the first two events
are retained; the third enqueue finds the queue full, leaves the items
unchanged and records a warning with the dropped path. -/
theorem c4_queue_bounded_witness :
    qFull.items.length = qFull.capacity
    ∧ Syncq.enqueue qFull qeThree
        = { qFull with warnings := qFull.warnings ++ [qeThree.path] } :=
  ⟨by decide, (c4_queue_bounded 2 [qeOne, qeTwo]).2.2.2 qFull qeThree (by decide)⟩

/-- C1 (the code at the failing input): inside one debounce window on one
path, Create followed by Write leaves Write as the stored and flushed
operation — `handleEvent` overwrites the pending operation
unconditionally, while the repository's own `mergeOp` priority merge,
which the claim and the spec's Scenario A describe, would keep Create. -/
theorem c1_overwrite_not_merge :
    (Fswatch.handleEvent gmNone cfgA 300 10
        (Fswatch.handleEvent gmNone cfgA 300 0 Fswatch.wstate0 "/sync/a.txt" Fswatch.createBit)
        "/sync/a.txt" Fswatch.writeBit).pending
      = [("/sync/a.txt", Fswatch.Op.write, 310)]
    ∧ (Fswatch.flushPending 310
        (Fswatch.handleEvent gmNone cfgA 300 10
          (Fswatch.handleEvent gmNone cfgA 300 0 Fswatch.wstate0 "/sync/a.txt" Fswatch.createBit)
          "/sync/a.txt" Fswatch.writeBit)).out
      = [{ path := "/sync/a.txt", op := Fswatch.Op.write, occurredAt := 310 }]
    ∧ Fswatch.mergeOp Fswatch.Op.create Fswatch.Op.write = Fswatch.Op.create
    ∧ Fswatch.Op.write ≠ Fswatch.Op.create := by decide

/-- C2 counterexample: on the bitmask with both the Create and the Remove
bits set, `normalizeOp` returns Create, not the higher-priority Remove
the claim requires (`normalizeOpSpec` is the claim's priority-ordered
mapping). -/
theorem c2_counterexample :
    Fswatch.normalizeOp (Fswatch.createBit ||| Fswatch.removeBit) = Fswatch.Op.create
    ∧ Fswatch.normalizeOpSpec (Fswatch.createBit ||| Fswatch.removeBit) = Fswatch.Op.remove
    ∧ Fswatch.normalizeOp (Fswatch.createBit ||| Fswatch.removeBit)
        ≠ Fswatch.normalizeOpSpec (Fswatch.createBit ||| Fswatch.removeBit)
    ∧ Fswatch.priority Fswatch.Op.remove > Fswatch.priority Fswatch.Op.create := by decide

/-- C2 amended: `normalizeOp` tests the bits in the source's fixed order
Create, Write, Remove, Rename, AttributeChange — first match wins — and a
bitmask matching none of the five maps to Unknown, whose event
`handleEvent` drops before it goes downstream. -/
theorem c2_normalize_first_match (mask : Nat) :
    (Fswatch.normalizeOp mask = Fswatch.Op.create
        ↔ mask &&& Fswatch.createBit = Fswatch.createBit)
    ∧ (Fswatch.normalizeOp mask = Fswatch.Op.write
        ↔ (mask &&& Fswatch.createBit ≠ Fswatch.createBit
            ∧ mask &&& Fswatch.writeBit = Fswatch.writeBit))
    ∧ (Fswatch.normalizeOp mask = Fswatch.Op.remove
        ↔ (mask &&& Fswatch.createBit ≠ Fswatch.createBit
            ∧ mask &&& Fswatch.writeBit ≠ Fswatch.writeBit
            ∧ mask &&& Fswatch.removeBit = Fswatch.removeBit))
    ∧ (Fswatch.normalizeOp mask = Fswatch.Op.rename
        ↔ (mask &&& Fswatch.createBit ≠ Fswatch.createBit
            ∧ mask &&& Fswatch.writeBit ≠ Fswatch.writeBit
            ∧ mask &&& Fswatch.removeBit ≠ Fswatch.removeBit
            ∧ mask &&& Fswatch.renameBit = Fswatch.renameBit))
    ∧ (Fswatch.normalizeOp mask = Fswatch.Op.chmod
        ↔ (mask &&& Fswatch.createBit ≠ Fswatch.createBit
            ∧ mask &&& Fswatch.writeBit ≠ Fswatch.writeBit
            ∧ mask &&& Fswatch.removeBit ≠ Fswatch.removeBit
            ∧ mask &&& Fswatch.renameBit ≠ Fswatch.renameBit
            ∧ mask &&& Fswatch.chmodBit = Fswatch.chmodBit))
    ∧ (Fswatch.normalizeOp mask = Fswatch.Op.unknown
        ↔ (mask &&& Fswatch.createBit ≠ Fswatch.createBit
            ∧ mask &&& Fswatch.writeBit ≠ Fswatch.writeBit
            ∧ mask &&& Fswatch.removeBit ≠ Fswatch.removeBit
            ∧ mask &&& Fswatch.renameBit ≠ Fswatch.renameBit
            ∧ mask &&& Fswatch.chmodBit ≠ Fswatch.chmodBit))
    ∧ (∀ gm cfg deb now st path, Fswatch.normalizeOp mask = Fswatch.Op.unknown →
        Fswatch.handleEvent gm cfg deb now st path mask = st) := by
  refine ⟨?_, ?_, ?_, ?_, ?_, ?_, ?_⟩
  · unfold Fswatch.normalizeOp
    split_ifs <;> simp_all
  · unfold Fswatch.normalizeOp
    split_ifs <;> simp_all
  · unfold Fswatch.normalizeOp
    split_ifs <;> simp_all
  · unfold Fswatch.normalizeOp
    split_ifs <;> simp_all
  · unfold Fswatch.normalizeOp
    split_ifs <;> simp_all
  · unfold Fswatch.normalizeOp
    split_ifs <;> simp_all
  · intro gm cfg deb now st path h
    simp [Fswatch.handleEvent, h]

/-- C2 witness: bitmask 32 matches no operation bit, normalizes to
Unknown, and its event is dropped without touching the watcher state. -/
theorem c2_normalize_first_match_witness :
    Fswatch.normalizeOp 32 = Fswatch.Op.unknown
    ∧ Fswatch.handleEvent gmNone cfgA 300 0 Fswatch.wstate0 "/sync/b.bin" 32
        = Fswatch.wstate0 :=
  ⟨by decide,
   (c2_normalize_first_match 32).2.2.2.2.2.2 gmNone cfgA 300 0 Fswatch.wstate0
     "/sync/b.bin" (by decide)⟩

namespace Fswatch

theorem setPending_mem (pending : List (String × Op × Nat)) (path : String)
    (v : Op × Nat) (q : String × Op × Nat) (hq : q ∈ setPending pending path v) :
    q.1 = path ∨ q ∈ pending := by
  induction pending with
  | nil =>
    simp only [setPending, List.mem_singleton] at hq
    left
    rw [hq]
  | cons a rest ih =>
    by_cases hc : a.1 = path
    · simp only [setPending, if_pos hc] at hq
      rcases List.mem_cons.mp hq with h | h
      · left
        rw [h]
      · right
        exact List.mem_cons_of_mem _ h
    · simp only [setPending, if_neg hc] at hq
      rcases List.mem_cons.mp hq with h | h
      · right
        rw [h]
        exact List.mem_cons_self _ _
      · rcases ih h with h' | h'
        · left
          exact h'
        · right
          exact List.mem_cons_of_mem _ h'

theorem avoids_wstate0 (p : String) : avoids p wstate0 :=
  ⟨by simp [wstate0], by simp [wstate0], by simp [wstate0]⟩

theorem avoids_handleEvent (gm : String → String → Bool) (cfg : Config) (deb now : Nat)
    (st : WState) (p path : String) (mask : Nat)
    (hig : shouldIgnore gm cfg p = true) (h : avoids p st) :
    avoids p (handleEvent gm cfg deb now st path mask) := by
  unfold handleEvent
  by_cases h1 : shouldIgnore gm cfg path = true
  · rw [if_pos h1]
    exact h
  · rw [if_neg h1]
    dsimp only
    by_cases h2 : normalizeOp mask = Op.unknown
    · rw [if_pos h2]
      exact h
    · rw [if_neg h2]
      refine ⟨?_, h.2.1, h.2.2⟩
      intro e he
      rcases setPending_mem st.pending path _ e he with h' | h'
      · rw [h']
        intro hpp
        rw [hpp] at h1
        exact h1 hig
      · exact h.1 e h'

theorem avoids_flushPending (now : Nat) (st : WState) (p : String) (h : avoids p st) :
    avoids p (flushPending now st) := by
  obtain ⟨hp, ho, hs⟩ := h
  refine ⟨?_, ?_, ?_⟩
  · intro e he
    exact hp e (List.mem_of_mem_filter he)
  · intro e he
    rcases List.mem_append.mp he with h' | h'
    · exact ho e h'
    · obtain ⟨a, ha, rfl⟩ := List.mem_map.mp h'
      exact hp a (List.mem_of_mem_filter ha)
  · intro e he
    rcases List.mem_append.mp he with h' | h'
    · exact hs e h'
    · obtain ⟨a, ha, rfl⟩ := List.mem_map.mp h'
      exact hp a (List.mem_of_mem_filter ha)

theorem avoids_runW_aux (gm : String → String → Bool) (cfg : Config) (deb : Nat)
    (p : String) (hig : shouldIgnore gm cfg p = true)
    (steps : List WStep) (st : WState) (h : avoids p st) :
    avoids p (steps.foldl (stepW gm cfg deb) st) := by
  induction steps generalizing st with
  | nil => exact h
  | cons s steps ih =>
    apply ih
    cases s with
    | raw now path mask => exact avoids_handleEvent gm cfg deb now st p path mask hig h
    | tick now => exact avoids_flushPending now st p h

theorem shouldIgnore_iff (gm : String → String → Bool) (cfg : Config) (path : String) :
    shouldIgnore gm cfg path = true ↔ ignoreSpecMatch gm cfg path := by
  unfold shouldIgnore ignoreSpecMatch
  dsimp only
  split_ifs with h1 h2 h3 h4 h5 h6
  · exact ⟨fun _ => by tauto, fun _ => rfl⟩
  · exact ⟨fun _ => by tauto, fun _ => rfl⟩
  · exact ⟨fun _ => by tauto, fun _ => rfl⟩
  · exact ⟨fun _ => by tauto, fun _ => rfl⟩
  · refine ⟨fun _ => ?_, fun _ => rfl⟩
    rw [List.any_eq_true] at h5
    obtain ⟨pat, hpat, hgm⟩ := h5
    exact Or.inr (Or.inr (Or.inr (Or.inr (Or.inr (Or.inl ⟨pat, hpat, hgm⟩)))))
  · refine ⟨fun _ => ?_, fun _ => rfl⟩
    rw [List.any_eq_true] at h6
    obtain ⟨suf, hsuf, hhs⟩ := h6
    exact Or.inr (Or.inr (Or.inr (Or.inr (Or.inr (Or.inr ⟨suf, hsuf, hhs⟩)))))
  · constructor
    · intro hft
      simp at hft
    · intro hd
      exfalso
      rcases hd with h | h | h | h | h | h | h
      · exact h1 (Or.inl h)
      · exact h1 (Or.inr h)
      · exact h2 h
      · exact h3 h
      · exact h4 h
      · obtain ⟨pat, hpat, hgm⟩ := h
        exact h5 (List.any_eq_true.mpr ⟨pat, hpat, hgm⟩)
      · obtain ⟨suf, hsuf, hhs⟩ := h
        exact h6 (List.any_eq_true.mpr ⟨suf, hsuf, hhs⟩)

end Fswatch

/-- C3: for a path matched by the ignore policy — base name `.` or `..`,
path equal to a configured reserved path (log, database, or socket file),
base name matching a configured glob pattern, or base name ending in
`.swp`, `.tmp`, `~`, or `.DS_Store` — `handleEvent` discards the event
before normalization, leaving the state unchanged, so over any input
sequence no emitted event, written summary, or pending entry ever
mentions that path; and a path is ignored exactly when one of those four
rules matches. -/
theorem c3_ignored_paths_silent (gm : String → String → Bool) (cfg : Fswatch.Config)
    (deb : Nat) (steps : List Fswatch.WStep) (p : String)
    (h : Fswatch.shouldIgnore gm cfg p = true) :
    (∀ e ∈ (Fswatch.runW gm cfg deb steps).out, e.path ≠ p)
    ∧ (∀ e ∈ (Fswatch.runW gm cfg deb steps).summaries, e.2 ≠ p)
    ∧ (∀ e ∈ (Fswatch.runW gm cfg deb steps).pending, e.1 ≠ p)
    ∧ (∀ now st mask, Fswatch.handleEvent gm cfg deb now st p mask = st)
    ∧ (∀ q, Fswatch.shouldIgnore gm cfg q = true ↔ Fswatch.ignoreSpecMatch gm cfg q) := by
  have hav := Fswatch.avoids_runW_aux gm cfg deb p h steps Fswatch.wstate0
    (Fswatch.avoids_wstate0 p)
  refine ⟨hav.2.1, hav.2.2, hav.1, ?_, fun q => Fswatch.shouldIgnore_iff gm cfg q⟩
  intro now st mask
  unfold Fswatch.handleEvent
  rw [if_pos h]

/-- C3 witness: `/sync/tmp.swp` is ignored by the suffix rule, and after
a run containing a raw event on it (plus a regular event and a tick)
nothing emitted, summarized, or pending mentions it. -/
theorem c3_ignored_paths_silent_witness :
    Fswatch.shouldIgnore gmNone cfgA "/sync/tmp.swp" = true
    ∧ (∀ e ∈ (Fswatch.runW gmNone cfgA 300 stepsC3).out, e.path ≠ "/sync/tmp.swp")
    ∧ (∀ e ∈ (Fswatch.runW gmNone cfgA 300 stepsC3).summaries, e.2 ≠ "/sync/tmp.swp")
    ∧ (∀ e ∈ (Fswatch.runW gmNone cfgA 300 stepsC3).pending, e.1 ≠ "/sync/tmp.swp") :=
  ⟨by decide,
   (c3_ignored_paths_silent gmNone cfgA 300 stepsC3 "/sync/tmp.swp" (by decide)).1,
   (c3_ignored_paths_silent gmNone cfgA 300 stepsC3 "/sync/tmp.swp" (by decide)).2.1,
   (c3_ignored_paths_silent gmNone cfgA 300 stepsC3 "/sync/tmp.swp" (by decide)).2.2.1⟩

/-- C8: `Start` returns an error exactly when the creation of the sync
root or the directory walk over it was attempted and failed, and on an
error neither the processing loop is started nor the status store moved
to the watching state. -/
theorem c8_start_errors (root : String) (m w : Option String) :
    ((Fswatch.start root m w).errored ≠ none
      ↔ (((Fswatch.start root m w).mkdirCalled ∧ m ≠ none)
          ∨ ((Fswatch.start root m w).walkCalled ∧ w ≠ none)))
    ∧ ((Fswatch.start root m w).errored ≠ none →
        (Fswatch.start root m w).loopStarted = false
        ∧ (Fswatch.start root m w).statusUpdated = false) := by
  unfold Fswatch.start
  by_cases hr : root = "" <;> cases m <;> cases w <;> simp [hr]

/-- C8 witness: with a nonempty root and a failing directory creation,
`Start` returns the error without starting the loop or updating the
status store. -/
theorem c8_start_errors_witness :
    (Fswatch.start "/sync" (some "io error") none).errored ≠ none
    ∧ ((Fswatch.start "/sync" (some "io error") none).loopStarted = false
      ∧ (Fswatch.start "/sync" (some "io error") none).statusUpdated = false) :=
  ⟨by decide, (c8_start_errors "/sync" (some "io error") none).2 (by decide)⟩

/-- C9: with an empty sync root, `Start` returns nil immediately: no
directory creation, no walk or subscription, no status update, and no
processing loop (hence nothing is ever emitted). -/
theorem c9_empty_root_noop (m w : Option String) :
    Fswatch.start "" m w
      = { errored := none, mkdirCalled := false, walkCalled := false,
          statusUpdated := false, loopStarted := false } := by
  simp [Fswatch.start]
